import Mathlib

set_option maxRecDepth 100000

/-!
Verification of the adapter-layer header `src/servers/c/src/cbl/Fleece.h`.

The header is declaration-only: it declares the namespace `ts_support::fleece`
with four free functions (`toJSON`, `updateProperties`, `removeProperties`,
`compareDicts`) over opaque Fleece handles (`FLValue`, `FLMutableDict`,
`FLDict`) and `nlohmann::json` values.  We embed the header twice:

* a syntactic embedding of the declared C++ signatures (types, parameter
  lists, return types) and of the verbatim text lines of the file, and
* a semantic model of the four operations.  The function bodies are not part
  of the repository slice under review (only the header is), so the semantic
  definitions are modelled from the specification's description of the
  operations and are marked as such in their doc comments.
-/

/-- A C++ type as it appears in the declared signatures of the header:
the three opaque Fleece handle types, `nlohmann::json`, `void`,
`std::string`, `int`, `std::vector<T>`, `std::unordered_map<K, V>`,
`const T &`, `T *`, and an ownership-transferring wrapper (such as
Fleece's retained-reference types), which the header never uses. -/
inductive CType where
  | flValue
  | flMutableDict
  | flDict
  | flError
  | json
  | voidTy
  | stringTy
  | intTy
  | vector (t : CType)
  | unorderedMap (k v : CType)
  | constRef (t : CType)
  | ptr (t : CType)
  | retained (t : CType)
  deriving DecidableEq, Repr

/-- A declared free function: its name, parameter types in order, return
type, and whether the declaration carries an exception specification. -/
structure FunDecl where
  name : String
  params : List CType
  ret : CType
  throwsSpec : Bool
  deriving DecidableEq, Repr

/-- `nlohmann::json toJSON(FLValue value);` (line 11 of the header). -/
def toJSON_decl : FunDecl :=
  { name := "toJSON", params := [.flValue], ret := .json, throwsSpec := false }

/-- `void updateProperties(FLMutableDict dict, const std::vector<std::unordered_map<std::string, nlohmann::json>> &updates);` (lines 13-14). -/
def updateProperties_decl : FunDecl :=
  { name := "updateProperties"
    params := [.flMutableDict, .constRef (.vector (.unorderedMap .stringTy .json))]
    ret := .voidTy
    throwsSpec := false }

/-- `void removeProperties(FLMutableDict dict, const std::vector<std::string> &keyPaths);` (line 16). -/
def removeProperties_decl : FunDecl :=
  { name := "removeProperties"
    params := [.flMutableDict, .constRef (.vector .stringTy)]
    ret := .voidTy
    throwsSpec := false }

/-- `FLDict compareDicts(FLDict dict1, FLDict dict2);` (line 18). -/
def compareDicts_decl : FunDecl :=
  { name := "compareDicts", params := [.flDict, .flDict], ret := .flDict, throwsSpec := false }

/-- A declaration-only translation unit: the namespace name, the function
declarations it contains, and any type or variable declarations. -/
structure HeaderUnit where
  namespaceName : String
  functions : List FunDecl
  typeDecls : List String
  varDecls : List String
  deriving DecidableEq, Repr

/-- The whole visible surface of `Fleece.h`: namespace `ts_support::fleece`
containing exactly the four function declarations and nothing else (no
types, no variables). -/
def fleeceUnit : HeaderUnit :=
  { namespaceName := "ts_support::fleece"
    functions := [toJSON_decl, updateProperties_decl, removeProperties_decl, compareDicts_decl]
    typeDecls := []
    varDecls := [] }

/-- The three opaque value-model handle types owned by the Fleece library. -/
def isHandle : CType → Bool
  | .flValue => true
  | .flMutableDict => true
  | .flDict => true
  | _ => false

/-- A declared function operates on the opaque value-model handles when at
least one of its parameters is a handle type. -/
def opsOnHandles (f : FunDecl) : Bool :=
  f.params.any isHandle

/-- Types that could carry an error or status code in a C-style interface:
`int` status returns and the library's `FLError` code. -/
def isStatusType : CType → Bool
  | .intTy => true
  | .flError => true
  | _ => false

/-- An error out-parameter: a pointer to a status or error-code type. -/
def isErrorOutParam : CType → Bool
  | .ptr t => isStatusType t
  | _ => false

/-- A declared signature exposes an error channel when it returns a status
type, takes an error out-parameter, or declares an exception
specification. -/
def hasErrorChannel (f : FunDecl) : Bool :=
  isStatusType f.ret || f.params.any isErrorOutParam || f.throwsSpec

/-- A type that transfers ownership of the referenced data anywhere in its
structure (a retained-reference wrapper, possibly nested). -/
def isOwningType : CType → Bool
  | .retained _ => true
  | .vector t => isOwningType t
  | .unorderedMap k v => isOwningType k || isOwningType v
  | .constRef t => isOwningType t
  | .ptr t => isOwningType t
  | _ => false

/-- Mutation of a dictionary is expressible through a declared signature
only via a mutable-dictionary handle parameter. -/
def MutatesThroughSignature (f : FunDecl) : Prop :=
  CType.flMutableDict ∈ f.params

instance (f : FunDecl) : Decidable (MutatesThroughSignature f) := by
  unfold MutatesThroughSignature
  infer_instance

/-- The verbatim text lines of `src/servers/c/src/cbl/Fleece.h`.  The file
ends without a trailing newline, so its 513 bytes contain 18 newline
characters and 19 physical lines. -/
def fleeceHeaderLines : List String :=
  [ "#pragma once"
  , ""
  , "#include \"CBLHeader.h\""
  , "#include FLEECE_HEADER(Fleece.h)"
  , ""
  , "#include <nlohmann/json.hpp>"
  , "#include <unordered_map>"
  , "#include <vector>"
  , ""
  , "namespace ts_support::fleece \x7b"
  , "    nlohmann::json toJSON(FLValue value);"
  , ""
  , "    void updateProperties(FLMutableDict dict,"
  , "                          const std::vector<std::unordered_map<std::string, nlohmann::json>> &updates);"
  , ""
  , "    void removeProperties(FLMutableDict dict, const std::vector<std::string> &keyPaths);"
  , ""
  , "    FLDict compareDicts(FLDict dict1, FLDict dict2);"
  , "\x7d" ]

/-- The character content of the header file: its lines joined by newline
characters, with no trailing newline, exactly as the 513-byte file on
disk. -/
def fleeceHeaderChars : List Char :=
  ((fleeceHeaderLines.map String.data).intersperse "\n".data).flatten

/-- Horizontal whitespace. -/
def isWS (c : Char) : Bool := c == ' ' || c == '\t'

/-- The characters of a line with surrounding whitespace removed. -/
def trimmedChars (s : String) : List Char :=
  ((s.data.dropWhile isWS).reverse.dropWhile isWS).reverse

/-- Whether the second character list starts with the first. -/
def leadMatches : List Char → List Char → Bool
  | [], _ => true
  | _ :: _, [] => false
  | p :: ps, c :: cs => p == c && leadMatches ps cs

/-- Whether a character list ends in the given character. -/
def endsIn (ch : Char) (l : List Char) : Bool :=
  match l.getLast? with
  | some c => c == ch
  | none => false

/-- A physical line with no algorithmic content: blank, a preprocessor
directive, a namespace opener, a closing brace, or a fragment of a function
declaration (ending in `;` or in `,` when the declaration continues on the
next line).  No statement, control flow, or expression evaluation. -/
def isDeclarativeLine (s : String) : Bool :=
  let t := trimmedChars s
  t.isEmpty ||
  leadMatches "#".data t ||
  leadMatches "namespace".data t ||
  t == "\x7d".data ||
  endsIn ';' t ||
  endsIn ',' t

namespace ts_support.fleece

mutual
/-- Modelled from the spec: the value model, "the external library's
in-memory representation of semi-structured (JSON-like) data".  The
implementation translating it (Fleece.cpp) is not among the reviewed
sources; only the header declares the operations on it. -/
inductive FLValue where
  | null
  | boolean (b : Bool)
  | integer (n : Int)
  | string (s : String)
  | array (elems : FLArray)
  | dict (entries : FLDictEntries)
  deriving DecidableEq, Repr

/-- An array of values in the value model. -/
inductive FLArray where
  | nil
  | cons (hd : FLValue) (tl : FLArray)
  deriving DecidableEq, Repr

/-- The ordered entry list of a dictionary in the value model. -/
inductive FLDictEntries where
  | nil
  | cons (key : String) (val : FLValue) (tl : FLDictEntries)
  deriving DecidableEq, Repr
end

mutual
/-- Modelled from the spec: an `nlohmann::json` value, the JSON
representation side of the adapter. -/
inductive Json where
  | null
  | boolean (b : Bool)
  | number (n : Int)
  | str (s : String)
  | arr (elems : JsonList)
  | obj (fields : JsonObj)
  deriving DecidableEq, Repr

/-- A JSON array. -/
inductive JsonList where
  | nil
  | cons (hd : Json) (tl : JsonList)
  deriving DecidableEq, Repr

/-- A JSON object as an ordered field list. -/
inductive JsonObj where
  | nil
  | cons (key : String) (val : Json) (tl : JsonObj)
  deriving DecidableEq, Repr
end

mutual
/-- Modelled from the spec: "a value-to-JSON converter" — the structural
translation of a value-model value to its JSON representation.  The
implementation file is not among the reviewed sources. -/
def toJSON : FLValue → Json
  | .null => .null
  | .boolean b => .boolean b
  | .integer n => .number n
  | .string s => .str s
  | .array xs => .arr (toJSONList xs)
  | .dict kvs => .obj (toJSONObj kvs)

/-- Elementwise conversion of a value-model array. -/
def toJSONList : FLArray → JsonList
  | .nil => .nil
  | .cons x xs => .cons (toJSON x) (toJSONList xs)

/-- Entrywise conversion of a value-model dictionary. -/
def toJSONObj : FLDictEntries → JsonObj
  | .nil => .nil
  | .cons k v rest => .cons k (toJSON v) (toJSONObj rest)
end

mutual
/-- Modelled from the spec: the inverse direction, JSON into the value
model, used when applying JSON-valued updates to a dictionary and to state
that `toJSON` loses no information. -/
def fromJSON : Json → FLValue
  | .null => .null
  | .boolean b => .boolean b
  | .number n => .integer n
  | .str s => .string s
  | .arr xs => .array (fromJSONList xs)
  | .obj kvs => .dict (fromJSONObj kvs)

/-- Elementwise conversion of a JSON array. -/
def fromJSONList : JsonList → FLArray
  | .nil => .nil
  | .cons x xs => .cons (fromJSON x) (fromJSONList xs)

/-- Fieldwise conversion of a JSON object. -/
def fromJSONObj : JsonObj → FLDictEntries
  | .nil => .nil
  | .cons k v rest => .cons k (fromJSON v) (fromJSONObj rest)
end

/-- Modelled from the spec: the state of a dictionary addressed through an
`FLMutableDict` or `FLDict` handle, as an association list from key paths
(the spec gives key paths no internal grammar, so they are modelled as
opaque string keys) to stored values. -/
abbrev DictState := List (String × FLValue)

/-- The key list of an association list. -/
def keysOf {α : Type} (d : List (String × α)) : List String :=
  d.map Prod.fst

/-- Lookup of the first binding of a key in an association list. -/
def lookupKV {α : Type} : List (String × α) → String → Option α
  | [], _ => none
  | (k, v) :: rest, key => if key = k then some v else lookupKV rest key

/-- Storing one JSON value under one key path: the value is converted into
the value model and replaces any previous binding of that key path. -/
def applyUpdate (d : DictState) (key : String) (j : Json) : DictState :=
  (key, fromJSON j) :: d.filter (fun kv => decide (kv.1 ≠ key))

/-- Applying one update set: its key-path-to-value pairs are stored one
after another in the order the set's container enumerates them. -/
def applySet (d : DictState) (s : List (String × Json)) : DictState :=
  s.foldl (fun acc kv => applyUpdate acc kv.1 kv.2) d

/-- Modelled from the spec: "a bulk property updater taking ordered
path-keyed update sets" — the update sets are applied to the dictionary in
the order of the sequence.  The implementation file is not among the
reviewed sources. -/
def updateProperties (d : DictState) (updates : List (List (String × Json))) : DictState :=
  updates.foldl applySet d

/-- Modelled from the spec: "a bulk property remover taking a list of key
paths" — every binding whose key path is listed is removed.  The
implementation file is not among the reviewed sources. -/
def removeProperties (d : DictState) (keyPaths : List String) : DictState :=
  d.filter (fun kv => decide (kv.1 ∉ keyPaths))

/-- A lookup result as a value-model value, absent bindings reading as
null. -/
def optVal : Option FLValue → FLValue
  | some v => v
  | none => .null

/-- The difference record for one key: nothing when both dictionaries
agree on the key, otherwise the pair of their readings at that key. -/
def diffEntry (d1 d2 : DictState) (k : String) : Option (String × FLValue) :=
  if lookupKV d1 k = lookupKV d2 k then none
  else some (k, .array (.cons (optVal (lookupKV d1 k)) (.cons (optVal (lookupKV d2 k)) .nil)))

/-- Modelled from the spec: "a dictionary comparison producing a
dictionary of differences" — the result binds exactly the keys at which
the two dictionaries disagree.  The implementation file is not among the
reviewed sources. -/
def compareDicts (d1 d2 : DictState) : DictState :=
  ((keysOf d1 ++ keysOf d2).dedup).filterMap (diffEntry d1 d2)

/-- Whether the key paths of an update set's entry list are pairwise
distinct, as the keys of a `std::unordered_map` are. -/
def nodupKeysB : List (String × Json) → Bool
  | [] => true
  | (k, _) :: rest => decide (k ∉ keysOf rest) && nodupKeysB rest

/-- Removal of the first occurrence of an element, when present. -/
def removeFirst {α : Type} [DecidableEq α] (x : α) : List α → Option (List α)
  | [] => none
  | y :: ys => if x = y then some ys else (removeFirst x ys).map (fun zs => y :: zs)

/-- Executable permutation check between two lists. -/
def isPermOf {α : Type} [DecidableEq α] : List α → List α → Bool
  | [], [] => true
  | [], _ :: _ => false
  | x :: xs, ys =>
    match removeFirst x ys with
    | some ys' => isPermOf xs ys'
    | none => false

/-- Two entry lists denote the same unordered map: the first has distinct
keys and the second lists exactly the same key-value pairs, possibly in
another enumeration order. -/
def setEquivB (s t : List (String × Json)) : Bool :=
  nodupKeysB s && isPermOf s t

/-- Two update-set sequences are pointwise equal as maps. -/
def seqEquivB : List (List (String × Json)) → List (List (String × Json)) → Bool
  | [], [] => true
  | s :: ss, t :: ts => setEquivB s t && seqEquivB ss ts
  | _, _ => false

/-- First-defined choice between two optional values. -/
def orOpt {α : Type} : Option α → Option α → Option α
  | some v, _ => some v
  | none, o => o

mutual
theorem fromJSON_toJSON : ∀ v : FLValue, fromJSON (toJSON v) = v
  | .null => rfl
  | .boolean _ => rfl
  | .integer _ => rfl
  | .string _ => rfl
  | .array xs => by simp [toJSON, fromJSON, fromJSONList_toJSONList xs]
  | .dict kvs => by simp [toJSON, fromJSON, fromJSONObj_toJSONObj kvs]

theorem fromJSONList_toJSONList : ∀ xs : FLArray, fromJSONList (toJSONList xs) = xs
  | .nil => rfl
  | .cons x xs => by
    simp [toJSONList, fromJSONList, fromJSON_toJSON x, fromJSONList_toJSONList xs]

theorem fromJSONObj_toJSONObj : ∀ kvs : FLDictEntries, fromJSONObj (toJSONObj kvs) = kvs
  | .nil => rfl
  | .cons k v rest => by
    simp [toJSONObj, fromJSONObj, fromJSON_toJSON v, fromJSONObj_toJSONObj rest]
end

theorem lookupKV_eq_none_of_not_mem {α : Type} {d : List (String × α)} {k : String}
    (h : k ∉ keysOf d) : lookupKV d k = none := by
  induction d with
  | nil => rfl
  | cons hd tl ih =>
    obtain ⟨k₀, v⟩ := hd
    simp [keysOf] at h
    simp [lookupKV, h.1, ih (by simp [keysOf, h.2])]

theorem mem_of_lookupKV_eq_some {α : Type} {d : List (String × α)} {k : String} {v : α}
    (h : lookupKV d k = some v) : (k, v) ∈ d := by
  induction d with
  | nil => simp [lookupKV] at h
  | cons hd tl ih =>
    obtain ⟨k₀, w⟩ := hd
    by_cases hk : k = k₀
    · subst hk
      simp [lookupKV] at h
      simp [h]
    · simp [lookupKV, hk] at h
      simp [ih h]

theorem lookupKV_eq_some_of_mem_nodup {α : Type} {d : List (String × α)} {k : String} {v : α}
    (hmem : (k, v) ∈ d) (hnd : (keysOf d).Nodup) : lookupKV d k = some v := by
  induction d with
  | nil => simp at hmem
  | cons hd tl ih =>
    obtain ⟨k₀, w⟩ := hd
    have hnd' : k₀ ∉ keysOf tl ∧ (keysOf tl).Nodup := by
      rw [keysOf, List.map_cons, List.nodup_cons] at hnd
      exact hnd
    rcases List.mem_cons.mp hmem with heq | htl
    · rw [Prod.mk.injEq] at heq
      simp [lookupKV, heq.1, heq.2]
    · have hk : k ≠ k₀ := by
        intro hkk
        subst hkk
        exact hnd'.1 (List.mem_map_of_mem Prod.fst htl)
      simp [lookupKV, hk, ih htl hnd'.2]

theorem mem_keys_of_lookupKV_eq_some {α : Type} {d : List (String × α)} {k : String} {v : α}
    (h : lookupKV d k = some v) : k ∈ keysOf d := by
  simpa [keysOf] using List.mem_map_of_mem Prod.fst (mem_of_lookupKV_eq_some h)

theorem lookupKV_isSome_of_mem_keys {α : Type} {d : List (String × α)} {k : String}
    (h : k ∈ keysOf d) : ∃ v, lookupKV d k = some v := by
  induction d with
  | nil => simp [keysOf] at h
  | cons hd tl ih =>
    obtain ⟨k₀, v⟩ := hd
    by_cases hk : k = k₀
    · exact ⟨v, by simp [lookupKV, hk]⟩
    · rw [keysOf, List.map_cons, List.mem_cons] at h
      obtain ⟨w, hw⟩ := ih (h.resolve_left hk)
      exact ⟨w, by simp [lookupKV, hk, hw]⟩

theorem removeFirst_perm {α : Type} [DecidableEq α] (x : α) (ys : List α) :
    ∀ {ys' : List α}, removeFirst x ys = some ys' → ys.Perm (x :: ys') := by
  induction ys with
  | nil =>
    intro ys' h
    simp [removeFirst] at h
  | cons y ys ih =>
    intro ys' h
    by_cases hxy : x = y
    · rw [removeFirst, if_pos hxy] at h
      cases h
      subst hxy
      exact List.Perm.refl _
    · rw [removeFirst, if_neg hxy] at h
      cases hz : removeFirst x ys with
      | none =>
        rw [hz] at h
        simp at h
      | some zs =>
        rw [hz] at h
        simp at h
        subst h
        exact ((ih hz).cons y).trans (List.Perm.swap x y zs)

theorem isPermOf_perm {α : Type} [DecidableEq α] :
    ∀ (xs ys : List α), isPermOf xs ys = true → xs.Perm ys
  | [], [], _ => List.Perm.refl []
  | [], _ :: _, h => by simp [isPermOf] at h
  | x :: xs, ys, h => by
    rw [isPermOf] at h
    cases hz : removeFirst x ys with
    | none =>
      rw [hz] at h
      exact absurd h (by simp)
    | some ys' =>
      rw [hz] at h
      exact ((isPermOf_perm xs ys' h).cons x).trans (removeFirst_perm x ys hz).symm

theorem nodupKeysB_nodup :
    ∀ (s : List (String × Json)), nodupKeysB s = true → (keysOf s).Nodup
  | [], _ => List.nodup_nil
  | (k, _) :: rest, h => by
    rw [nodupKeysB, Bool.and_eq_true, decide_eq_true_eq] at h
    rw [keysOf, List.map_cons, List.nodup_cons]
    exact ⟨h.1, nodupKeysB_nodup rest h.2⟩

theorem perm_lookupKV {s t : List (String × Json)} (hp : s.Perm t)
    (hnd : (keysOf s).Nodup) (k : String) : lookupKV s k = lookupKV t k := by
  cases h : lookupKV s k with
  | some v =>
    have hmem : (k, v) ∈ t := hp.mem_iff.mp (mem_of_lookupKV_eq_some h)
    have hndt : (keysOf t).Nodup := ((hp.map Prod.fst).nodup_iff).mp hnd
    exact (lookupKV_eq_some_of_mem_nodup hmem hndt).symm
  | none =>
    have hk : k ∉ keysOf t := by
      intro hmem
      obtain ⟨v, hv⟩ := lookupKV_isSome_of_mem_keys (((hp.map Prod.fst).mem_iff).mpr hmem)
      rw [h] at hv
      exact Option.noConfusion hv
    rw [lookupKV_eq_none_of_not_mem hk]

theorem lookupKV_filter_ne (d : DictState) (k key : String) (h : key ≠ k) :
    lookupKV (d.filter (fun kv => !decide (kv.1 = k))) key = lookupKV d key := by
  induction d with
  | nil => rfl
  | cons hd tl ih =>
    obtain ⟨k₀, v⟩ := hd
    by_cases h₀ : k₀ = k
    · subst h₀
      simp [List.filter_cons, lookupKV, ih, h]
    · by_cases hkey : key = k₀
      · subst hkey
        simp [List.filter_cons, lookupKV, h₀]
      · simp [List.filter_cons, lookupKV, h₀, hkey, ih]

theorem lookupKV_applyUpdate (d : DictState) (k : String) (j : Json) (key : String) :
    lookupKV (applyUpdate d k j) key = if key = k then some (fromJSON j) else lookupKV d key := by
  by_cases hk : key = k
  · simp [applyUpdate, lookupKV, hk]
  · simp [applyUpdate, lookupKV, hk, lookupKV_filter_ne d k key hk]

theorem lookupKV_applySet (s : List (String × Json)) :
    ∀ (d : DictState), (keysOf s).Nodup → ∀ key : String,
      lookupKV (applySet d s) key
        = orOpt ((lookupKV s key).map fromJSON) (lookupKV d key) := by
  induction s with
  | nil =>
    intro d _ key
    simp [applySet, lookupKV, orOpt]
  | cons hd rest ih =>
    intro d hnd key
    obtain ⟨k, j⟩ := hd
    have hnd' : k ∉ keysOf rest ∧ (keysOf rest).Nodup := by
      rw [keysOf, List.map_cons, List.nodup_cons] at hnd
      exact hnd
    have happ : applySet d ((k, j) :: rest) = applySet (applyUpdate d k j) rest := rfl
    rw [happ, ih (applyUpdate d k j) hnd'.2 key]
    by_cases hk : key = k
    · subst hk
      rw [lookupKV_eq_none_of_not_mem hnd'.1]
      simp [lookupKV, applyUpdate, orOpt]
    · simp [lookupKV, hk, applyUpdate, lookupKV_filter_ne d k key hk]

theorem lookupKV_removeProperties (d : DictState) (ps : List String) (k : String) :
    lookupKV (removeProperties d ps) k = if k ∈ ps then none else lookupKV d k := by
  induction d with
  | nil =>
    simp [removeProperties, lookupKV]
  | cons hd tl ih =>
    obtain ⟨k₀, v⟩ := hd
    simp only [removeProperties, decide_not] at ih ⊢
    by_cases h₀ : k₀ ∈ ps
    · by_cases hk : k = k₀
      · subst hk
        simp [List.filter_cons, h₀, ih]
      · simp [List.filter_cons, h₀, ih, lookupKV, hk]
    · by_cases hk : k = k₀
      · subst hk
        simp [List.filter_cons, h₀, lookupKV]
      · simp [List.filter_cons, h₀, lookupKV, hk, ih]

theorem mem_keys_compareDicts (d1 d2 : DictState) (k : String) :
    k ∈ keysOf (compareDicts d1 d2) ↔ lookupKV d1 k ≠ lookupKV d2 k := by
  constructor
  · intro hk
    rw [keysOf, compareDicts] at hk
    obtain ⟨p, hp, hfst⟩ := List.mem_map.mp hk
    obtain ⟨a, _, hfa⟩ := List.mem_filterMap.mp hp
    by_cases heq : lookupKV d1 a = lookupKV d2 a
    · rw [diffEntry, if_pos heq] at hfa
      exact Option.noConfusion hfa
    · rw [diffEntry, if_neg heq] at hfa
      cases hfa
      simp only at hfst
      subst hfst
      exact heq
  · intro hne
    have hmem : k ∈ (keysOf d1 ++ keysOf d2).dedup := by
      rw [List.mem_dedup, List.mem_append]
      by_cases h1 : k ∈ keysOf d1
      · exact Or.inl h1
      · right
        by_contra h2
        rw [lookupKV_eq_none_of_not_mem h1, lookupKV_eq_none_of_not_mem h2] at hne
        exact hne rfl
    rw [keysOf, compareDicts]
    refine List.mem_map.mpr
      ⟨(k, .array (.cons (optVal (lookupKV d1 k)) (.cons (optVal (lookupKV d2 k)) .nil))),
       List.mem_filterMap.mpr ⟨k, hmem, ?_⟩, rfl⟩
    rw [diffEntry, if_neg hne]

theorem updateProperties_congr :
    ∀ (us₁ us₂ : List (List (String × Json))) (d₁ d₂ : DictState),
      seqEquivB us₁ us₂ = true →
      (∀ k, lookupKV d₁ k = lookupKV d₂ k) →
      ∀ key, lookupKV (updateProperties d₁ us₁) key = lookupKV (updateProperties d₂ us₂) key
  | [], [], _, _, _, hd, key => hd key
  | [], _ :: _, _, _, h, _, _ => by simp [seqEquivB] at h
  | _ :: _, [], _, _, h, _, _ => by simp [seqEquivB] at h
  | s :: ss, t :: ts, d₁, d₂, h, hd, key => by
    rw [seqEquivB, Bool.and_eq_true, setEquivB, Bool.and_eq_true] at h
    obtain ⟨⟨hnd, hperm⟩, hseq⟩ := h
    have hndS : (keysOf s).Nodup := nodupKeysB_nodup s hnd
    have hpermP : s.Perm t := isPermOf_perm s t hperm
    have hndT : (keysOf t).Nodup := ((hpermP.map Prod.fst).nodup_iff).mp hndS
    have hstep : ∀ k, lookupKV (applySet d₁ s) k = lookupKV (applySet d₂ t) k := by
      intro k
      rw [lookupKV_applySet s d₁ hndS k, lookupKV_applySet t d₂ hndT k,
        perm_lookupKV hpermP hndS k, hd k]
    have hupd₁ : updateProperties d₁ (s :: ss) = updateProperties (applySet d₁ s) ss := rfl
    have hupd₂ : updateProperties d₂ (t :: ts) = updateProperties (applySet d₂ t) ts := rfl
    rw [hupd₁, hupd₂]
    exact updateProperties_congr ss ts _ _ hseq hstep key

end ts_support.fleece

open ts_support.fleece

/-- Claim C1: the entire visible surface of the adapter layer is exactly
four free functions — `toJSON`, `updateProperties`, `removeProperties`,
`compareDicts` — and every one of them operates on opaque value-model
handles (`FLValue`, `FLMutableDict`, `FLDict`); the unit exposes no other
operation, type, or state. -/
theorem claim1_surface_is_four_functions :
    fleeceUnit.functions
      = [toJSON_decl, updateProperties_decl, removeProperties_decl, compareDicts_decl] ∧
    fleeceUnit.functions.map FunDecl.name
      = ["toJSON", "updateProperties", "removeProperties", "compareDicts"] ∧
    fleeceUnit.typeDecls = [] ∧
    fleeceUnit.varDecls = [] ∧
    fleeceUnit.functions.all opsOnHandles = true := by
  decide

/-- Claim C2 counterexample: the claim says performing the dictionary
comparison mutates dictionary state as the other two helpers do; but
mutation is expressible through a declared signature only via an
`FLMutableDict` parameter, and `compareDicts` takes none — its two
parameters are both the immutable handle type `FLDict`. -/
theorem claim2_compareDicts_mutates_cex :
    ¬ MutatesThroughSignature compareDicts_decl := by
  decide

/-- Claim C2 (amended): `updateProperties` and `removeProperties` are the
mutators — each takes an `FLMutableDict` — while `compareDicts` takes only
the immutable handle type `FLDict` for both inputs and returns a new
dictionary of differences instead of mutating dictionary state. -/
theorem claim2_compareDicts_reads_inputs :
    MutatesThroughSignature updateProperties_decl ∧
    MutatesThroughSignature removeProperties_decl ∧
    ¬ MutatesThroughSignature compareDicts_decl ∧
    compareDicts_decl.params = [CType.flDict, CType.flDict] ∧
    compareDicts_decl.ret = CType.flDict := by
  decide

/-- Claim C3: `toJSON` is a value-to-JSON converter: its declared
signature takes one `FLValue` and returns an `nlohmann::json` value, and
(in the spec model) the JSON representation it produces determines the
value completely — the conversion loses nothing. -/
theorem claim3_toJSON_is_converter :
    toJSON_decl.params = [CType.flValue] ∧
    toJSON_decl.ret = CType.json ∧
    ∀ v : FLValue, fromJSON (toJSON v) = v :=
  ⟨rfl, rfl, fromJSON_toJSON⟩

/-- Claim C4: `updateProperties` is a bulk property updater taking ordered
path-keyed update sets: the declared signature takes a mutable dictionary
and a vector of string-to-JSON maps and returns `void`, and (in the spec
model) the update sets are applied in the sequence order given — applying
a concatenation of sequences equals applying the first sequence and then
the second to the resulting dictionary. -/
theorem claim4_updateProperties_ordered_bulk :
    updateProperties_decl.params
      = [CType.flMutableDict,
         CType.constRef (CType.vector (CType.unorderedMap CType.stringTy CType.json))] ∧
    updateProperties_decl.ret = CType.voidTy ∧
    ∀ (d : DictState) (us₁ us₂ : List (List (String × Json))),
      updateProperties d (us₁ ++ us₂) = updateProperties (updateProperties d us₁) us₂ := by
  refine ⟨rfl, rfl, fun d us₁ us₂ => ?_⟩
  simp [updateProperties, List.foldl_append]

/-- Claim C5: `removeProperties` is a bulk property remover taking a list
of key paths: the declared signature takes a mutable dictionary and a
vector of strings and returns `void`, and (in the spec model) afterwards
every listed key path reads as absent while every other key path reads
unchanged. -/
theorem claim5_removeProperties_removes :
    removeProperties_decl.params
      = [CType.flMutableDict, CType.constRef (CType.vector CType.stringTy)] ∧
    removeProperties_decl.ret = CType.voidTy ∧
    ∀ (d : DictState) (ps : List String) (k : String),
      lookupKV (removeProperties d ps) k = if k ∈ ps then none else lookupKV d k :=
  ⟨rfl, rfl, lookupKV_removeProperties⟩

/-- Claim C6: `compareDicts` is a dictionary comparison producing a
dictionary of differences: the declared signature takes two `FLDict`
handles and returns an `FLDict`, and (in the spec model) the returned
dictionary binds exactly the keys at which the two inputs disagree. -/
theorem claim6_compareDicts_produces_diff :
    compareDicts_decl.params = [CType.flDict, CType.flDict] ∧
    compareDicts_decl.ret = CType.flDict ∧
    ∀ (d1 d2 : DictState) (k : String),
      k ∈ keysOf (compareDicts d1 d2) ↔ lookupKV d1 k ≠ lookupKV d2 k :=
  ⟨rfl, rfl, mem_keys_compareDicts⟩

/-- Claim C7: no error taxonomy is visible in the declared interface: no
function returns a status type, takes an error out-parameter, or declares
an exception specification, and the two mutators return `void`. -/
theorem claim7_no_error_channel :
    fleeceUnit.functions.all (fun f => !hasErrorChannel f) = true ∧
    updateProperties_decl.ret = CType.voidTy ∧
    removeProperties_decl.ret = CType.voidTy := by
  decide

/-- Claim C8: every function only borrows the value-model handles it
receives: the unit declares no state that could retain a handle past a
call, and no parameter type is an ownership-transferring (retained)
wrapper, so all data ownership stays with the external library. -/
theorem claim8_handles_borrowed :
    fleeceUnit.varDecls = [] ∧
    fleeceUnit.typeDecls = [] ∧
    fleeceUnit.functions.all (fun f => f.params.all (fun t => !isOwningType t)) = true := by
  decide

/-- Claim C9 counterexample: the header does not consist of 18 lines: its
513 bytes end without a trailing newline and split into 19 physical lines
(the figure 18 counts only the newline characters). -/
theorem claim9_line_count_cex :
    fleeceHeaderLines.length ≠ 18 ∧ fleeceHeaderLines.length = 19 := by
  decide

/-- Claim C9 (amended): the visible unit consists of 19 physical lines —
513 characters with 18 newline characters and no trailing newline — and
every line is purely declarative: blank, a preprocessor directive, a
namespace brace, or a fragment of a function declaration, with no
algorithmic content. -/
theorem claim9_nineteen_declarative_lines :
    fleeceHeaderLines.length = 19 ∧
    fleeceHeaderChars.length = 513 ∧
    (fleeceHeaderChars.filter (fun c => c == '\n')).length = 18 ∧
    fleeceHeaderLines.all isDeclarativeLine = true := by
  decide

/-- Claim C10: within a single update set the key-path-to-value pairs
carry no order: whenever two update-set sequences are pointwise equal as
maps (each pair of corresponding sets has the same key paths, bound to the
same values, with distinct keys as in a `std::unordered_map`, possibly
enumerated in different orders), `updateProperties` leaves the dictionary
in the same observable state — every key path reads the same afterwards. -/
theorem claim10_updateProperties_set_order_irrelevant
    (d : DictState) (us₁ us₂ : List (List (String × Json)))
    (h : seqEquivB us₁ us₂ = true) (key : String) :
    lookupKV (updateProperties d us₁) key = lookupKV (updateProperties d us₂) key :=
  updateProperties_congr us₁ us₂ d d h (fun _ => rfl) key

/-- Witness for claim C10 at a concrete input: one update set enumerated
in two different orders yields the same reading of key "a". -/
theorem claim10_updateProperties_set_order_irrelevant_witness :
    seqEquivB [[("a", Json.number 1), ("b", Json.boolean true)]]
        [[("b", Json.boolean true), ("a", Json.number 1)]] = true ∧
    lookupKV (updateProperties []
        [[("a", Json.number 1), ("b", Json.boolean true)]]) "a"
      = lookupKV (updateProperties []
        [[("b", Json.boolean true), ("a", Json.number 1)]]) "a" :=
  ⟨by decide,
   claim10_updateProperties_set_order_irrelevant []
     [[("a", Json.number 1), ("b", Json.boolean true)]]
     [[("b", Json.boolean true), ("a", Json.number 1)]] (by decide) "a"⟩
